import Mathlib

/-!
Shallow embedding of the repository-inspection toolbox of the
`different_agent` package (`git_tools.py` and `github_tools.py`).

Modelling conventions:
* external effects (subprocess stdout, HTTP fetch results, the wall clock,
  ISO date parsing) are passed in as explicit arguments or oracle functions;
* a Python exception propagating out of a tool is modelled by `Except.error`,
  a normal return by `Except.ok`;
* the process-wide evidence counters (module-level Python sets) are modelled
  as explicit `Finset` state threaded through the functions that touch them;
* Python strings are Lean strings; the Python string primitives used by the
  source (`split`, `splitlines`, `strip`, `join`, slicing) are modelled by
  structurally recursive functions over the character list, for LF-separated
  text as delivered by `subprocess.run(..., text=True)` and the JSON client.
-/

/-- Split a character list at every occurrence of the separator `c`,
mirroring Python `s.split(c)` for a single-character separator: the empty
string yields one empty part, and separators at the ends yield empty parts. -/
def splitListOn (c : Char) : List Char → List (List Char)
  | [] => [[]]
  | x :: xs =>
    let r := splitListOn c xs
    if x = c then [] :: r
    else
      match r with
      | [] => [[x]]
      | y :: ys => (x :: y) :: ys

/-- Model of Python `s.split(c)` for a one-character separator. -/
def pySplitChar (c : Char) (s : String) : List String :=
  (splitListOn c s.toList).map String.mk

/-- Model of Python `sep.join(parts)`. -/
def pyJoin (sep : String) : List String → String
  | [] => ""
  | [x] => x
  | x :: rest => x ++ sep ++ pyJoin sep rest

/-- Model of Python `str.splitlines` for LF-separated text: the empty string
has no lines, and a trailing newline does not open a final empty line. -/
def pySplitlines (s : String) : List String :=
  if s = "" then []
  else
    let parts := pySplitChar '\n' s
    if s.toList.getLast? = some '\n' then parts.dropLast else parts

/-- The default whitespace characters stripped by Python `str.strip` that can
occur in LF-normalised subprocess output. -/
def isPyWhitespace (c : Char) : Bool :=
  c = ' ' ∨ c = '\t' ∨ c = '\n' ∨ c = '\r'

/-- Model of Python `str.strip()`: drop whitespace from both ends. -/
def pyStrip (s : String) : String :=
  String.mk (((s.toList.dropWhile isPyWhitespace).reverse.dropWhile
    isPyWhitespace).reverse)

/-- Model of Python `s[:n]`: keep the first `n` characters. -/
def pyTake (n : Nat) (s : String) : String :=
  String.mk (s.toList.take n)

/-- Model of Python `s.split("\t", 1)`: split at the first tab only. -/
def pySplit1Tab (s : String) : List String :=
  match pySplitChar '\t' s with
  | [] => [s]
  | [x] => [x]
  | x :: rest => [x, pyJoin "\t" rest]

/-- Model of Python `a or b` on two optional strings: `None` and the empty
string are falsy, so they fall through to the second operand. -/
def pyOrStr (a b : Option String) : Option String :=
  match a with
  | some s => if s = "" then b else some s
  | none => b

/-- The unit-separator character `"\x1f"` used by the pretty formats of
`git_recent_commits` and `git_show_commit` as a field separator. -/
def usChar : Char := '\x1f'

/-- The record-separator character `"\x1e"` used by `git_recent_commits`. -/
def rsChar : Char := '\x1e'

/-! ### git_tools.py: evidence counter for analyzed commits -/

/-- Model of `_record_analyzed_commit`: `if sha: _ANALYZED_COMMITS.add(sha)`.
An empty (falsy) sha is not recorded. -/
def record_analyzed_commit (s : Finset String) (sha : String) : Finset String :=
  if sha = "" then s else insert sha s

/-- Model of `get_analyzed_commit_count`: the size of the analyzed set. -/
def get_analyzed_commit_count (s : Finset String) : Nat := s.card

/-- Model of `reset_analyzed_commit_count`: the cleared analyzed set. -/
def reset_analyzed_commits : Finset String := (∅ : Finset String)

/-! ### git_tools.py: git_recent_commits -/

structure CommitSummary where
  sha : String
  author : String
  date : String
  subject : String
deriving DecidableEq

/-- One record of the `git_recent_commits` log output: strip, skip empties,
then `sha, author, date, subject = record.split("\x1f")`, which raises a
`ValueError` (modelled by `Except.error`) on a field-count mismatch. -/
def parseCommitRecord (record : String) : Except String (Option CommitSummary) :=
  let record := pyStrip record
  if record = "" then .ok none
  else
    match pySplitChar usChar record with
    | [sha, author, date, subject] => .ok (some ⟨sha, author, date, subject⟩)
    | _ => .error "ValueError: commit record does not have 4 fields"

/-- The record loop of `git_recent_commits` over `out.split("\x1e")`. -/
def parseCommitRecords : List String → Except String (List CommitSummary)
  | [] => .ok []
  | r :: rest => do
    let head ← parseCommitRecord r
    let tail ← parseCommitRecords rest
    match head with
    | none => .ok tail
    | some c => .ok (c :: tail)

/-- Model of `git_recent_commits`: validate the bounds (raising `ValueError`
for non-positive values), then parse the log output delivered by the git
subprocess (passed in as `stdout`). -/
def git_recent_commits (sinceDays maxCount : Int) (stdout : String) :
    Except String (List CommitSummary) :=
  if sinceDays ≤ 0 then .error "since_days must be > 0"
  else if maxCount ≤ 0 then .error "max_count must be > 0"
  else parseCommitRecords (pySplitChar rsChar stdout)

/-! ### git_tools.py: git_show_commit -/

structure FileEntry where
  status : String
  path : String
deriving DecidableEq

structure CommitDetail where
  sha : String
  author : String
  date : String
  subject : String
  body : String
  files : List FileEntry
  patch : String
  patch_truncated : Bool
deriving DecidableEq

/-- The body of the file-status loop of `git_show_commit`: strip the line,
skip empties, split at the first tab, skip lines that did not split in two. -/
def parseStatusLine (line : String) : Option FileEntry :=
  let line := pyStrip line
  if line = "" then none
  else
    match pySplit1Tab line with
    | [status, path] => some ⟨status, path⟩
    | _ => none

/-- Core of `git_show_commit` after `meta.splitlines()`: unpack the first
line into the five `"\x1f"`-separated fields (a mismatch raises
`ValueError`), parse the remaining lines as file-status entries, and build
the possibly truncated patch from the diff output `patchOut`. -/
def git_show_commit_fromLines (maxPatchLines : Int) (metaLines : List String)
    (patchOut : String) : Except String CommitDetail :=
  match metaLines with
  | [] => .error "ValueError: not enough values to unpack"
  | metaLine :: fileLines =>
    match pySplitChar usChar metaLine with
    | [commitSha, author, date, subject, body] =>
      let patchLines := pySplitlines patchOut
      let truncated : Bool := maxPatchLines < (patchLines.length : Int)
      let patch :=
        if truncated then
          pyJoin "\n" (patchLines.take maxPatchLines.toNat)
            ++ "\n\n[patch truncated]"
        else patchOut
      .ok ⟨commitSha, author, date, subject, body,
           fileLines.filterMap parseStatusLine, patch, truncated⟩
    | _ => .error "ValueError: meta line does not have 5 fields"

/-- Model of `git_show_commit`: validate `max_patch_lines`, then process the
metadata output `meta` and the diff output `patchOut` of the two git
subprocess calls. -/
def git_show_commit (maxPatchLines : Int) (meta patchOut : String) :
    Except String CommitDetail :=
  if maxPatchLines ≤ 0 then .error "max_patch_lines must be > 0"
  else git_show_commit_fromLines maxPatchLines (pySplitlines meta) patchOut

/-- The evidence-counter effect of a `git_show_commit` call: on success the
parsed `commit_sha` is recorded; if the call raised, the set is unchanged.
The repository path only selects which git output is observed and does not
enter the recorded key. -/
def git_show_commit_record (_repoPath : String) (s : Finset String)
    (maxPatchLines : Int) (meta patchOut : String) : Finset String :=
  match git_show_commit maxPatchLines meta patchOut with
  | .ok d => record_analyzed_commit s d.sha
  | .error _ => s

/-- Whether `pat` occurs at the start of `l`. -/
def isPrefixList : List Char → List Char → Bool
  | [], _ => true
  | _ :: _, [] => false
  | p :: ps, x :: xs => p = x && isPrefixList ps xs

/-- Whether `pat` occurs contiguously anywhere inside `l`. -/
def containsList (pat : List Char) : List Char → Bool
  | [] => isPrefixList pat []
  | x :: xs => isPrefixList pat (x :: xs) || containsList pat xs

/-- Boolean test for the presence of the literal patch truncation marker. -/
def hasPatchMarker (s : String) : Bool :=
  containsList "[patch truncated]".toList s.toList

/-! ### git_tools.py: git_show_file -/

/-- The observable outcome of the `subprocess.run` call in `git_show_file`
(run with `check=False`). -/
structure CompletedProcess where
  returncode : Int
  stdout : String
  stderr : String

inductive FileResult
  | errRec (msg : String)
  | content (ref : String) (path : String) (text : String) (truncated : Bool)
deriving DecidableEq

/-- Model of `git_show_file`: validate `max_lines` (raising `ValueError`),
return an error record on a non-zero exit (stripped stderr, or a generic
message when that is empty), otherwise the possibly truncated content. -/
def git_show_file (maxLines : Int) (ref path : String)
    (completed : CompletedProcess) : Except String FileResult :=
  if maxLines ≤ 0 then .error "max_lines must be > 0"
  else if completed.returncode ≠ 0 then
    .ok (.errRec
      (if pyStrip completed.stderr = "" then "git show failed"
       else pyStrip completed.stderr))
  else
    let lines := pySplitlines completed.stdout
    let truncated : Bool := maxLines < (lines.length : Int)
    let kept := if truncated then lines.take maxLines.toNat else lines
    .ok (.content ref path
      (pyJoin "\n" kept
        ++ (if truncated then "\n\n[file truncated]" else ""))
      truncated)

/-! ### github_tools.py: evidence counter for analyzed PRs -/

/-- Keys of the analyzed-PR evidence set: `(owner, repo, number)` triples. -/
abbrev PrKey := String × String × Int

/-- Model of `_record_analyzed_pr`: falsy owner or repo, or a number that is
not an integer (modelled as `none`), is silently ignored. -/
def record_analyzed_pr (s : Finset PrKey) (owner repo : String)
    (number : Option Int) : Finset PrKey :=
  if owner = "" ∨ repo = "" then s
  else
    match number with
    | none => s
    | some n => insert (owner, repo, n) s

/-- Model of `get_analyzed_pr_count`: the size of the analyzed set. -/
def get_analyzed_pr_count (s : Finset PrKey) : Nat := s.card

/-- Model of `reset_analyzed_pr_count`: the cleared analyzed set. -/
def reset_analyzed_prs : Finset PrKey := (∅ : Finset PrKey)

/-! ### github_tools.py: JSON payload models -/

/-- The fields of a pull-request JSON object that the module reads.  Absent
JSON keys (and JSON `null`) are modelled as `none`. -/
structure PRItem where
  number : Option Int
  title : Option String
  state : Option String
  merged_at : Option String
  updated_at : Option String
  html_url : Option String
  body : Option String
deriving DecidableEq

/-- The record built by `github_recent_prs` for one kept pull request. -/
structure PRRecord where
  number : Option Int
  title : Option String
  state : Option String
  merged_at : Option String
  updated_at : Option String
  html_url : Option String
deriving DecidableEq

/-- The projection applied by both modes of `github_recent_prs`. -/
def projectPR (item : PRItem) : PRRecord :=
  ⟨item.number, item.title, item.state, item.merged_at, item.updated_at,
   item.html_url⟩

/-- A decoded JSON value that is expected to be an object: either a dict
(with the fields the module reads) or some other JSON value. -/
inductive ApiValue
  | dict (item : PRItem)
  | nonDict
deriving DecidableEq

/-- The observable outcome of one `_github_request_json` call for a single
object: a decoded payload, an `urllib.error.HTTPError` with a status code,
or any other exception. -/
inductive FetchOutcome
  | ok (v : ApiValue)
  | httpErr (code : Int) (msg : String)
  | exc (msg : String)
deriving DecidableEq

/-- One element of the list returned by `github_recent_prs`: either an error
record `{"error": msg}` or a pull-request record. -/
inductive Entry
  | err (msg : String)
  | pr (rec : PRRecord)
deriving DecidableEq

/-- The full observable outcome of a `github_recent_prs` range-mode call:
the returned list, the PR numbers requested over the network in order, and
the analyzed-PR evidence set. -/
structure RangeState where
  results : List Entry
  visited : List Int
  recorded : Finset PrKey
deriving DecidableEq

/-- Model of Python `range(a, b + 1)` as an ascending list of integers. -/
def intRange (a b : Int) : List Int :=
  (List.range (b + 1 - a).toNat).map fun i => a + i

/-- The message of the error record built from a failed fetch. -/
def errMsgOf (o : FetchOutcome) : String :=
  match o with
  | .httpErr _ msg => "GitHub request failed: " ++ msg
  | .exc msg => "GitHub request failed: " ++ msg
  | .ok _ => ""

/-- Whether a fetch outcome aborts the range loop: any exception other than
an HTTP 404 (`if e.code == 404: continue`). -/
def isHardError (o : FetchOutcome) : Bool :=
  match o with
  | .httpErr code _ => code ≠ 404
  | .exc _ => true
  | .ok _ => false

/-- The per-number loop of the range mode of `github_recent_prs`: fetch each
number in turn, skip 404s and non-dict payloads, keep closed PRs, record the
analyzed PR, and stop once `max_count` results are collected; any other
fetch failure discards the collected results and returns a single error
record.  `acc`, `vis` accumulate the results and the requested numbers. -/
def range_loop (fetch : Int → FetchOutcome) (owner repo : String)
    (maxCount : Int) : List Int → List Entry → List Int → Finset PrKey →
    RangeState
  | [], acc, vis, s => ⟨acc, vis, s⟩
  | n :: rest, acc, vis, s =>
    match fetch n with
    | .httpErr code msg =>
      if code = 404 then
        range_loop fetch owner repo maxCount rest acc (vis ++ [n]) s
      else ⟨[.err ("GitHub request failed: " ++ msg)], vis ++ [n], s⟩
    | .exc msg => ⟨[.err ("GitHub request failed: " ++ msg)], vis ++ [n], s⟩
    | .ok .nonDict =>
      range_loop fetch owner repo maxCount rest acc (vis ++ [n]) s
    | .ok (.dict item) =>
      if item.state = some "closed" then
        if maxCount ≤ ((acc ++ [Entry.pr (projectPR item)]).length : Int) then
          ⟨acc ++ [Entry.pr (projectPR item)], vis ++ [n],
           record_analyzed_pr s owner repo item.number⟩
        else
          range_loop fetch owner repo maxCount rest
            (acc ++ [Entry.pr (projectPR item)]) (vis ++ [n])
            (record_analyzed_pr s owner repo item.number)
      else range_loop fetch owner repo maxCount rest acc (vis ++ [n]) s

/-- The `Option Entry` kept by the range loop for one fetched number. -/
def keep_range_entry (o : FetchOutcome) : Option Entry :=
  match o with
  | .ok (.dict item) =>
    if item.state = some "closed" then some (.pr (projectPR item)) else none
  | _ => none

/-- Model of the range mode of `github_recent_prs` (reached when at least
one of `from_pr`, `to_pr` was supplied): the three validations return error
records without issuing any request, then the loop runs over the ascending
number range.  `Except.error` would model a propagating Python exception;
this function always returns normally. -/
def github_recent_prs_range (fetch : Int → FetchOutcome)
    (owner repo : String) (maxCount : Int) (fromPr toPr : Option Int)
    (s : Finset PrKey) : Except String RangeState :=
  match fromPr, toPr with
  | some f, some t =>
    if f ≤ 0 ∨ t ≤ 0 then
      .ok ⟨[.err "from_pr and to_pr must be positive"], [], s⟩
    else if f > t then
      .ok ⟨[.err "from_pr must be <= to_pr"], [], s⟩
    else .ok (range_loop fetch owner repo maxCount (intRange f t) [] [] s)
  | _, _ => .ok ⟨[.err "from_pr and to_pr must both be provided"], [], s⟩

/-! ### github_tools.py: github_recent_prs, time-window mode -/

/-- The keep test of the time-window mode: take the merge date, falling back
to the update date under Python `or`; a record whose date is absent is kept,
a date that fails to parse is kept, otherwise keep exactly the dates not
strictly before the threshold. -/
def window_keep (parseDate : String → Option Int) (threshold : Int)
    (item : PRItem) : Bool :=
  match pyOrStr item.merged_at item.updated_at with
  | none => true
  | some ds =>
    match parseDate ds with
    | none => true
    | some d => if d < threshold then false else true

/-- The item loop of the time-window mode: skip non-dicts, keep items passing
the date filter, record each kept PR, stop at `max_count` results. -/
def window_loop (parseDate : String → Option Int) (threshold maxCount : Int)
    (owner repo : String) : List ApiValue → List Entry → Finset PrKey →
    List Entry × Finset PrKey
  | [], acc, s => (acc, s)
  | .nonDict :: rest, acc, s =>
    window_loop parseDate threshold maxCount owner repo rest acc s
  | .dict item :: rest, acc, s =>
    if window_keep parseDate threshold item then
      let acc2 := acc ++ [Entry.pr (projectPR item)]
      let s2 := record_analyzed_pr s owner repo item.number
      if maxCount ≤ (acc2.length : Int) then (acc2, s2)
      else window_loop parseDate threshold maxCount owner repo rest acc2 s2
    else window_loop parseDate threshold maxCount owner repo rest acc s

/-- The records the window filter keeps, in order: the reference list the
loop is proved equal to (up to the `max_count` cap). -/
def window_kept (parseDate : String → Option Int) (threshold : Int)
    (items : List ApiValue) : List Entry :=
  items.filterMap fun v =>
    match v with
    | .nonDict => none
    | .dict item =>
      if window_keep parseDate threshold item then
        some (Entry.pr (projectPR item))
      else none

/-- The observable outcome of `_github_request_json` on a listing URL. -/
inductive ListFetch
  | ok (items : List ApiValue)
  | nonList
  | exc (msg : String)

/-- Model of the time-window mode of `github_recent_prs`: the threshold is
now minus `since_days` (dates modelled as integers), a failed listing fetch
or a non-list payload yields a single error record, otherwise the item loop
runs.  This mode always returns normally. -/
def github_recent_prs_window (parseDate : String → Option Int)
    (now sinceDays maxCount : Int) (owner repo : String) (fetch : ListFetch)
    (s : Finset PrKey) : Except String (List Entry × Finset PrKey) :=
  let threshold := now - sinceDays
  match fetch with
  | .exc msg => .ok ([.err ("GitHub request failed: " ++ msg)], s)
  | .nonList => .ok ([.err "Unexpected response from GitHub pulls API"], s)
  | .ok items =>
    .ok (window_loop parseDate threshold maxCount owner repo items [] s)

/-! ### github_tools.py: github_recent_issues -/

/-- One element of a JSON labels array: a dict (with its `name` value) or
any other JSON value, which the projection skips. -/
inductive LabelValue
  | dict (name : Option String)
  | nonDict
deriving DecidableEq

/-- The fields of an issue JSON object that `github_recent_issues` reads.
`has_pull_request` models the `"pull_request" in item` key test. -/
structure IssueItem where
  number : Option Int
  title : Option String
  state : Option String
  labels : List LabelValue
  closed_at : Option String
  updated_at : Option String
  html_url : Option String
  body : Option String
  has_pull_request : Bool
deriving DecidableEq

/-- The record built by `github_recent_issues` for one kept issue. -/
structure IssueRecord where
  number : Option Int
  title : Option String
  state : Option String
  labels : List (Option String)
  closed_at : Option String
  updated_at : Option String
  html_url : Option String
  body : String
deriving DecidableEq

/-- The projection applied by `github_recent_issues`, with the 4000-character
body cap. -/
def projectIssue (item : IssueItem) : IssueRecord :=
  ⟨item.number, item.title, item.state,
   item.labels.filterMap fun l =>
     match l with
     | .dict name => some name
     | .nonDict => none,
   item.closed_at, item.updated_at, item.html_url,
   pyTake 4000 (item.body.getD "")⟩

/-- A decoded JSON element of the issues listing. -/
inductive IssueApiValue
  | dict (item : IssueItem)
  | nonDict
deriving DecidableEq

/-- One element of the list returned by `github_recent_issues`. -/
inductive IssueEntry
  | err (msg : String)
  | issue (rec : IssueRecord)
deriving DecidableEq

/-- The observable outcome of the issues listing fetch. -/
inductive IssueListFetch
  | ok (items : List IssueApiValue)
  | nonList
  | exc (msg : String)

/-- The item loop of `github_recent_issues`: skip non-dicts and pull
requests, project the rest, stop at `max_count` results. -/
def issues_loop (maxCount : Int) : List IssueApiValue → List IssueEntry →
    List IssueEntry
  | [], acc => acc
  | .nonDict :: rest, acc => issues_loop maxCount rest acc
  | .dict item :: rest, acc =>
    if item.has_pull_request then issues_loop maxCount rest acc
    else
      let acc2 := acc ++ [IssueEntry.issue (projectIssue item)]
      if maxCount ≤ (acc2.length : Int) then acc2
      else issues_loop maxCount rest acc2

/-- Model of `github_recent_issues`.  The function performs no validation of
`since_days` or `max_count`: `since_days` only enters the request URL (which
the fetch oracle abstracts) and the loop runs for any `max_count`.  A failed
fetch or a non-list payload yields a single error record; the function
always returns normally. -/
def github_recent_issues (_sinceDays : Int) (maxCount : Int)
    (fetch : IssueListFetch) : Except String (List IssueEntry) :=
  match fetch with
  | .exc msg => .ok [.err ("GitHub request failed: " ++ msg)]
  | .nonList => .ok [.err "Unexpected response from GitHub issues API"]
  | .ok items => .ok (issues_loop maxCount items [])

/-! ### github_tools.py: github_fetch_pr -/

/-- The record built by `github_fetch_pr`, with the 12000-character body
cap. -/
structure PRDetail where
  number : Option Int
  title : Option String
  state : Option String
  merged_at : Option String
  updated_at : Option String
  html_url : Option String
  body : String
deriving DecidableEq

/-- The value returned by `github_fetch_pr`. -/
inductive PRFetchOut
  | err (msg : String)
  | detail (d : PRDetail)
deriving DecidableEq

/-- Model of `github_fetch_pr`: fetch one PR, return an error record on any
exception or non-dict payload, otherwise the projected metadata record.  The
function returns the analyzed-PR evidence set unchanged in every branch: the
source of `github_fetch_pr` contains no `_record_analyzed_pr` call. -/
def github_fetch_pr (fetch : FetchOutcome) (_owner _repo : String)
    (_number : Int) (s : Finset PrKey) : PRFetchOut × Finset PrKey :=
  match fetch with
  | .httpErr _ msg => (.err ("GitHub request failed: " ++ msg), s)
  | .exc msg => (.err ("GitHub request failed: " ++ msg), s)
  | .ok .nonDict => (.err "Unexpected response from GitHub pull API", s)
  | .ok (.dict item) =>
    (.detail ⟨item.number, item.title, item.state, item.merged_at,
      item.updated_at, item.html_url, pyTake 12000 (item.body.getD "")⟩, s)

/-- Whether a modelled call returned normally (as opposed to a propagating
Python exception, modelled by `Except.error`). -/
def isNormalReturn {α : Type} (r : Except String α) : Bool :=
  match r with
  | .ok _ => true
  | .error _ => false

/-! ### Concrete vectors used by the witness theorems -/

/-- Metadata output for a one-line-body commit, used as a witness input. -/
def metaW1 : String := "abc\x1fAl\x1f2024\x1ffix\x1fbody"

/-- The commit detail produced from `metaW1` with a three-line diff at
`max_patch_lines = 2`. -/
def dW1 : CommitDetail :=
  ⟨"abc", "Al", "2024", "fix", "body", [],
   "l1\nl2\n\n[patch truncated]", true⟩

/-- Metadata output whose commit body is the two lines
`"line one\nline two"`, followed by one name-status line: the exact shape
`git show --pretty=format:"%H%x1f%an%x1f%ad%x1f%s%x1f%b" --name-status`
produces for such a commit. -/
def metaC2 : String :=
  "sha1\x1fAlice\x1f2024\x1ffix\x1fline one\nline two\nM\tapp.py"

/-- The commit detail the code actually builds from `metaC2`. -/
def dC2 : CommitDetail :=
  ⟨"sha1", "Alice", "2024", "fix", "line one", [⟨"M", "app.py"⟩], "", false⟩

/-- A successful three-line file read, used as a witness input. -/
def completedW8 : CompletedProcess := ⟨0, "a\nb\nc", ""⟩

/-- A closed PR payload, used as a witness input. -/
def prItemClosed : PRItem :=
  ⟨some 12, some "PR 12", some "closed", none, some "2024-01-01", some "u",
   some "body"⟩

/-- An open PR payload, used as a witness input. -/
def prItemOpen : PRItem :=
  ⟨some 3, some "PR 3", some "open", none, some "2024-01-02", some "u3",
   none⟩

/-- A fetch oracle for the range mode over `[1, 3]`: PR 1 exists and is
closed, PR 2 does not exist (HTTP 404), PR 3 exists but is open. -/
def fetchW4 : Int → FetchOutcome := fun n =>
  if n = 1 then .ok (.dict prItemClosed)
  else if n = 2 then .httpErr 404 "Not Found"
  else .ok (.dict prItemOpen)

/-- A fetch oracle that fails every request, showing that the range-mode
validations return before any request is issued. -/
def fetchBoom : Int → FetchOutcome := fun _ => .exc "network down"

/-- An issue payload that is not a pull request, used as a witness input. -/
def issueItemW7 : IssueItem :=
  ⟨some 7, some "Issue 7", some "closed", [.dict (some "bug")], none,
   some "2024-02-02", some "u7", some "text", false⟩

/-- A date-parsing oracle used as a witness input: two known date strings,
everything else unparseable. -/
def parseW3 : String → Option Int := fun s =>
  if s = "old" then some 10 else if s = "new" then some 90 else none

/-- A pulls listing used as a witness input: one PR merged before the
cutoff, one after, one with no date at all, one with an unparseable date,
and one non-dict element. -/
def itemsW3 : List ApiValue :=
  [.dict ⟨some 1, some "Old", some "closed", none, some "old", some "u1",
     none⟩,
   .dict ⟨some 2, some "New", some "closed", none, some "new", some "u2",
     none⟩,
   .dict ⟨some 3, some "NoDate", some "closed", none, none, some "u3",
     none⟩,
   .dict ⟨some 4, some "BadDate", some "closed", some "zz", none, some "u4",
     none⟩,
   .nonDict]

example : pySplitlines "a\nb\n" = ["a", "b"] := by decide
example : pySplitlines "" = [] := by decide
example : pySplitlines "a\n\n" = ["a", ""] := by decide
example : pySplit1Tab "a\tb\tc" = ["a", "b\tc"] := by decide
example : parseStatusLine "M\tsrc/app.py" = some ⟨"M", "src/app.py"⟩ := by decide
example : parseStatusLine "no tab here" = none := by decide
example : pyStrip "  x y\t" = "x y" := by decide
example : hasPatchMarker "abc\n\n[patch truncated]" = true := by decide
example : hasPatchMarker "abc" = false := by decide

/-! ### Helper lemmas -/

lemma record_commit_foldl (l : List String) (s : Finset String)
    (hl : ∀ x ∈ l, x ≠ "") :
    l.foldl record_analyzed_commit s = s ∪ l.toFinset := by
  induction l generalizing s with
  | nil => simp
  | cons x xs ih =>
    have hx : x ≠ "" := hl x (by simp)
    simp only [List.foldl_cons, List.toFinset_cons]
    rw [record_analyzed_commit, if_neg hx,
      ih _ (fun y hy => hl y (by simp [hy]))]
    ext a
    simp only [Finset.mem_union, Finset.mem_insert, List.mem_toFinset]
    tauto

lemma record_pr_foldl (l : List PrKey) (s : Finset PrKey)
    (hl : ∀ k ∈ l, k.1 ≠ "" ∧ k.2.1 ≠ "") :
    l.foldl (fun s k => record_analyzed_pr s k.1 k.2.1 (some k.2.2)) s
      = s ∪ l.toFinset := by
  induction l generalizing s with
  | nil => simp
  | cons k ks ih =>
    obtain ⟨hk1, hk2⟩ := hl k (by simp)
    simp only [List.foldl_cons, List.toFinset_cons]
    rw [record_analyzed_pr, if_neg (by simp [hk1, hk2])]
    show ks.foldl _ (insert (k.1, k.2.1, k.2.2) s) = _
    rw [show (k.1, k.2.1, k.2.2) = k from rfl,
      ih _ (fun y hy => hl y (by simp [hy]))]
    ext a
    simp only [Finset.mem_union, Finset.mem_insert, List.mem_toFinset]
    tauto

/-! ### Claim theorems -/

/-- C1: for every `max_patch_lines = N > 0`, a commit whose raw diff has
more than `N` lines yields `patch_truncated = true` and a patch that is
exactly the first `N` diff lines followed by the `[patch truncated]`
marker; a diff with at most `N` lines yields `patch_truncated = false`, the
unmodified diff, and no marker is introduced. -/
theorem claim_C1 (N : Int) (meta patchOut : String) (d : CommitDetail)
    (hN : 0 < N) (h : git_show_commit N meta patchOut = .ok d) :
    (N < ((pySplitlines patchOut).length : Int) →
      d.patch_truncated = true ∧
      d.patch = pyJoin "\n" ((pySplitlines patchOut).take N.toNat)
        ++ "\n\n[patch truncated]") ∧
    (((pySplitlines patchOut).length : Int) ≤ N →
      d.patch_truncated = false ∧ d.patch = patchOut ∧
      (hasPatchMarker patchOut = false → hasPatchMarker d.patch = false)) := by
  rw [git_show_commit, if_neg (by omega)] at h
  rw [git_show_commit_fromLines.eq_def] at h
  split at h
  · exact absurd h (by simp)
  · split at h
    · rw [Except.ok.injEq] at h
      subst h
      constructor
      · intro hlt
        simp [decide_eq_true hlt]
      · intro hle
        have hd : decide (N < ((pySplitlines patchOut).length : Int)) = false :=
          decide_eq_false (by omega)
        simp [hd]
    · exact absurd h (by simp)

/-- C1 witness: at `max_patch_lines = 2` and the three-line diff
`"l1\nl2\nl3"`, the result is truncated to the first two lines plus the
marker. -/
theorem claim_C1_witness :
    ((0 : Int) < 2) ∧
    (git_show_commit 2 metaW1 "l1\nl2\nl3" = .ok dW1) ∧
    (dW1.patch_truncated = true ∧
      dW1.patch = pyJoin "\n" ((pySplitlines "l1\nl2\nl3").take
        (2 : Int).toNat) ++ "\n\n[patch truncated]") :=
  ⟨by decide, by rfl,
   (claim_C1 2 metaW1 "l1\nl2\nl3" dW1 (by decide) (by rfl)).1 (by decide)⟩

/-- C2 counterexample: for a commit whose message body is the two lines
`"line one\nline two"` (metadata output `metaC2`), `git_show_commit` returns
`body = "line one"` only — the first body line — and the second body line
would have been parsed as a candidate file-status line.  The claim that the
body field equals the complete multi-line message body is false. -/
theorem claim_C2_counterexample :
    git_show_commit 400 metaC2 "" = .ok dC2 ∧
    dC2.body = "line one" ∧
    ("line one" : String) ≠ "line one\nline two" :=
  ⟨by rfl, by rfl, by decide⟩

/-- C2 amended: `git_show_commit` splits only the FIRST line of the
metadata output into the five fields, so the returned `body` is the fifth
field of that first line (the body up to its first newline), and every
subsequent line — later body lines included — is parsed as a candidate
file-status entry: a line containing a tab after stripping yields one
`{status, path}` entry split at the first tab, any other line is skipped
without error. -/
theorem claim_C2 (N : Int) (metaLine : String) (extraLines : List String)
    (patchOut : String) (a b c dd e : String)
    (hsplit : pySplitChar usChar metaLine = [a, b, c, dd, e]) :
    ∃ det,
      git_show_commit_fromLines N (metaLine :: extraLines) patchOut
        = .ok det ∧
      det.sha = a ∧ det.author = b ∧ det.date = c ∧ det.subject = dd ∧
      det.body = e ∧ det.files = extraLines.filterMap parseStatusLine := by
  simp only [git_show_commit_fromLines, hsplit]
  exact ⟨_, rfl, rfl, rfl, rfl, rfl, rfl, rfl⟩

/-- C2 witness: a metadata first line with five fields and two further
lines, one of which parses as a file-status entry; the returned body is the
fifth field of the first line. -/
theorem claim_C2_witness :
    (pySplitChar usChar "s\x1fA\x1fD\x1fsub\x1fbodyfirst"
      = ["s", "A", "D", "sub", "bodyfirst"]) ∧
    Except.map CommitDetail.body
      (git_show_commit_fromLines 400
        ["s\x1fA\x1fD\x1fsub\x1fbodyfirst", "x", "M\tf.py"] "")
      = .ok "bodyfirst" := by
  refine ⟨by decide, ?_⟩
  obtain ⟨det, heq, _, _, _, _, hbody, _⟩ :=
    claim_C2 400 "s\x1fA\x1fD\x1fsub\x1fbodyfirst" ["x", "M\tf.py"] ""
      "s" "A" "D" "sub" "bodyfirst" (by decide)
  rw [heq, Except.map, hbody]

/-- C8: with `max_lines = N > 0`, a non-zero exit of the underlying show
command makes `git_show_file` return an error record (stripped stderr, or a
generic message when that is empty) without raising, and a successful read
of a file with more than `N` lines returns `truncated = true` and exactly
the first `N` content lines followed by the `[file truncated]` marker. -/
theorem claim_C8 (maxLines : Int) (ref path : String)
    (completed : CompletedProcess) (hN : 0 < maxLines) :
    (completed.returncode ≠ 0 →
      git_show_file maxLines ref path completed
        = .ok (.errRec
            (if pyStrip completed.stderr = "" then "git show failed"
             else pyStrip completed.stderr))) ∧
    (completed.returncode = 0 →
      maxLines < ((pySplitlines completed.stdout).length : Int) →
      git_show_file maxLines ref path completed
        = .ok (.content ref path
            (pyJoin "\n" ((pySplitlines completed.stdout).take
              maxLines.toNat) ++ "\n\n[file truncated]")
            true)) := by
  constructor
  · intro hrc
    rw [git_show_file, if_neg (by omega), if_pos hrc]
  · intro hrc hlt
    rw [git_show_file, if_neg (by omega), if_neg (by simp [hrc])]
    simp only [decide_eq_true hlt]
    rfl

/-- C8 witness: a successful read of the three-line file `"a\nb\nc"` at
`max_lines = 2` keeps the first two lines and appends the marker. -/
theorem claim_C8_witness :
    ((0 : Int) < 2) ∧
    git_show_file 2 "HEAD" "f.txt" completedW8
      = .ok (.content "HEAD" "f.txt"
          (pyJoin "\n" ((pySplitlines completedW8.stdout).take
            (2 : Int).toNat) ++ "\n\n[file truncated]")
          true) :=
  ⟨by decide,
   (claim_C8 2 "HEAD" "f.txt" completedW8 (by decide)).2 rfl (by decide)⟩

/-- C9: recording the same commit SHA twice, or the same (owner, repo,
PR-number) triple twice, starting from a reset counter, leaves the
respective count at 1; and recording any list of distinct-or-repeated valid
keys leaves each counter equal to the number of distinct keys recorded. -/
theorem claim_C9 (sha : String) (k : PrKey) (l : List String)
    (kl : List PrKey) (hsha : sha ≠ "") (hk1 : k.1 ≠ "") (hk2 : k.2.1 ≠ "")
    (hl : ∀ x ∈ l, x ≠ "") (hkl : ∀ x ∈ kl, x.1 ≠ "" ∧ x.2.1 ≠ "") :
    get_analyzed_commit_count
      (record_analyzed_commit
        (record_analyzed_commit reset_analyzed_commits sha) sha) = 1 ∧
    get_analyzed_pr_count
      (record_analyzed_pr
        (record_analyzed_pr reset_analyzed_prs k.1 k.2.1 (some k.2.2))
        k.1 k.2.1 (some k.2.2)) = 1 ∧
    get_analyzed_commit_count
      (l.foldl record_analyzed_commit reset_analyzed_commits)
      = l.toFinset.card ∧
    get_analyzed_pr_count
      (kl.foldl (fun s x => record_analyzed_pr s x.1 x.2.1 (some x.2.2))
        reset_analyzed_prs)
      = kl.toFinset.card := by
  refine ⟨?_, ?_, ?_, ?_⟩
  · simp [record_analyzed_commit, hsha, reset_analyzed_commits,
      get_analyzed_commit_count, Finset.insert_idem]
  · have hno : ¬ (k.1 = "" ∨ k.2.1 = "") := by simp [hk1, hk2]
    simp only [record_analyzed_pr, if_neg hno, reset_analyzed_prs,
      get_analyzed_pr_count]
    rw [Finset.insert_idem]
    exact Finset.card_singleton _
  · rw [get_analyzed_commit_count, reset_analyzed_commits,
      record_commit_foldl l ∅ hl]
    simp
  · rw [get_analyzed_pr_count, reset_analyzed_prs,
      record_pr_foldl kl ∅ hkl]
    simp

/-- C9 witness: the double-record and distinct-count facts at concrete
keys. -/
theorem claim_C9_witness :
    (("abc" : String) ≠ "") ∧
    get_analyzed_commit_count
      (record_analyzed_commit
        (record_analyzed_commit reset_analyzed_commits "abc") "abc") = 1 ∧
    get_analyzed_pr_count
      (record_analyzed_pr
        (record_analyzed_pr reset_analyzed_prs "o" "r" (some 5))
        "o" "r" (some 5)) = 1 ∧
    get_analyzed_commit_count
      ((["a", "b", "a"] : List String).foldl record_analyzed_commit
        reset_analyzed_commits)
      = (["a", "b", "a"] : List String).toFinset.card := by
  have h := claim_C9 "abc" ("o", "r", 5) ["a", "b", "a"]
    [("o", "r", 1), ("o", "r", 1), ("o", "r", 2)]
    (by decide) (by decide) (by decide) (by decide) (by decide)
  exact ⟨by decide, h.1, h.2.1, h.2.2.1⟩

/-- C10: the analyzed-commit counter is keyed by the SHA alone: two
`git_show_commit` calls against different repository paths whose parsed
commits share one non-empty SHA leave the count at exactly 1 after a reset;
and recording an empty SHA never changes the set. -/
theorem claim_C10 (repo1 repo2 : String) (N1 N2 : Int)
    (m1 p1 m2 p2 : String) (d1 d2 : CommitDetail)
    (h1 : git_show_commit N1 m1 p1 = .ok d1)
    (h2 : git_show_commit N2 m2 p2 = .ok d2)
    (hsha : d2.sha = d1.sha) (hne : d1.sha ≠ "") :
    get_analyzed_commit_count
      (git_show_commit_record repo2
        (git_show_commit_record repo1 reset_analyzed_commits N1 m1 p1)
        N2 m2 p2) = 1 ∧
    (∀ s0 : Finset String, record_analyzed_commit s0 "" = s0) := by
  constructor
  · simp only [git_show_commit_record, h1, h2, record_analyzed_commit, hsha,
      if_neg hne]
    rw [get_analyzed_commit_count, reset_analyzed_commits,
      Finset.insert_idem]
    exact Finset.card_singleton _
  · intro s0
    rw [record_analyzed_commit, if_pos rfl]

/-- C10 witness: the same commit observed from two different repository
paths counts once. -/
theorem claim_C10_witness :
    (git_show_commit 400 metaW1 "" = .ok ⟨"abc", "Al", "2024", "fix",
      "body", [], "", false⟩) ∧
    get_analyzed_commit_count
      (git_show_commit_record "/repo/b"
        (git_show_commit_record "/repo/a" reset_analyzed_commits
          400 metaW1 "")
        400 metaW1 "") = 1 := by
  have h := claim_C10 "/repo/a" "/repo/b" 400 400 metaW1 "" metaW1 ""
    ⟨"abc", "Al", "2024", "fix", "body", [], "", false⟩
    ⟨"abc", "Al", "2024", "fix", "body", [], "", false⟩
    (by rfl) (by rfl) (by rfl) (by decide)
  exact ⟨by rfl, h.1⟩

/-! ### Loop lemmas for github_recent_prs -/

lemma window_loop_take (parseDate : String → Option Int)
    (threshold maxCount : Int) (owner repo : String) :
    ∀ (items : List ApiValue) (acc : List Entry) (s : Finset PrKey),
      (acc.length : Int) < maxCount →
      (window_loop parseDate threshold maxCount owner repo items acc s).1
        = acc ++ (window_kept parseDate threshold items).take
            (maxCount.toNat - acc.length) := by
  intro items
  induction items with
  | nil => intro acc s h; simp [window_loop, window_kept]
  | cons v rest ih =>
    intro acc s h
    cases v with
    | nonDict =>
      simp only [window_loop, window_kept, List.filterMap_cons]
      exact ih acc s h
    | dict item =>
      by_cases hk : window_keep parseDate threshold item
      · simp only [window_loop, if_pos hk, window_kept, List.filterMap_cons,
          hk, ite_true]
        by_cases hc :
            maxCount ≤ ((acc ++ [Entry.pr (projectPR item)]).length : Int)
        · rw [if_pos hc]
          have h1 : maxCount.toNat - acc.length = 1 := by
            simp only [List.length_append, List.length_cons,
              List.length_nil] at hc
            omega
          rw [h1, List.take_succ_cons, List.take_zero]
        · rw [if_neg hc]
          have h2 : ((acc ++ [Entry.pr (projectPR item)]).length : Int)
              < maxCount := by omega
          rw [ih _ _ h2]
          have h3 : maxCount.toNat - acc.length
              = (maxCount.toNat - (acc ++ [Entry.pr (projectPR item)]).length)
                + 1 := by
            simp only [List.length_append, List.length_cons,
              List.length_nil]
            omega
          rw [h3, List.take_succ_cons, List.append_assoc]
          rfl
      · simp only [window_loop, if_neg hk, window_kept, List.filterMap_cons,
          hk, ite_false]
        exact ih acc s h

lemma range_loop_clean (fetch : Int → FetchOutcome) (owner repo : String)
    (maxCount : Int) :
    ∀ (pending : List Int) (acc : List Entry) (vis : List Int)
      (s : Finset PrKey),
      (∀ n ∈ pending, isHardError (fetch n) = false) →
      ((acc.length : Int)
        + ((pending.filterMap fun n => keep_range_entry (fetch n)).length
            : Int) < maxCount) →
      (range_loop fetch owner repo maxCount pending acc vis s).results
          = acc ++ pending.filterMap (fun n => keep_range_entry (fetch n)) ∧
      (range_loop fetch owner repo maxCount pending acc vis s).visited
          = vis ++ pending := by
  intro pending
  induction pending with
  | nil => intro acc vis s _ _; simp [range_loop]
  | cons n rest ih =>
    intro acc vis s hclean hlen
    have hn : isHardError (fetch n) = false := hclean n (by simp)
    have hrest : ∀ m ∈ rest, isHardError (fetch m) = false :=
      fun m hm => hclean m (by simp [hm])
    cases hf : fetch n with
    | httpErr code msg =>
      have hcode : code = 404 := by
        rw [hf] at hn
        simpa [isHardError] using hn
      have hknone : keep_range_entry (fetch n) = none := by
        simp [keep_range_entry, hf]
      simp only [List.filterMap_cons, hknone] at hlen
      have hunfold : range_loop fetch owner repo maxCount (n :: rest) acc
            vis s
          = range_loop fetch owner repo maxCount rest acc (vis ++ [n]) s := by
        simp only [range_loop, hf]
        rw [if_pos hcode]
      obtain ⟨h1, h2⟩ := ih acc (vis ++ [n]) s hrest hlen
      rw [hunfold, h1, h2]
      constructor
      · simp only [List.filterMap_cons, hknone]
      · rw [List.append_assoc]
        rfl
    | exc msg =>
      rw [hf] at hn
      simp [isHardError] at hn
    | ok v =>
      cases v with
      | nonDict =>
        have hknone : keep_range_entry (fetch n) = none := by
          simp [keep_range_entry, hf]
        simp only [List.filterMap_cons, hknone] at hlen
        have hunfold : range_loop fetch owner repo maxCount (n :: rest) acc
              vis s
            = range_loop fetch owner repo maxCount rest acc (vis ++ [n])
                s := by
          simp only [range_loop, hf]
        obtain ⟨h1, h2⟩ := ih acc (vis ++ [n]) s hrest hlen
        rw [hunfold, h1, h2]
        constructor
        · simp only [List.filterMap_cons, hknone]
        · rw [List.append_assoc]
          rfl
      | dict item =>
        by_cases hst : item.state = some "closed"
        · have hkeep : keep_range_entry (fetch n)
              = some (Entry.pr (projectPR item)) := by
            simp [keep_range_entry, hf, hst]
          simp only [List.filterMap_cons, hkeep, List.length_cons] at hlen
          have hnb : ¬ (maxCount
              ≤ ((acc ++ [Entry.pr (projectPR item)]).length : Int)) := by
            simp only [List.length_append, List.length_cons,
              List.length_nil]
            push_cast
            push_cast at hlen
            omega
          have hunfold : range_loop fetch owner repo maxCount (n :: rest)
                acc vis s
              = range_loop fetch owner repo maxCount rest
                  (acc ++ [Entry.pr (projectPR item)]) (vis ++ [n])
                  (record_analyzed_pr s owner repo item.number) := by
            simp only [range_loop, hf]
            rw [if_pos hst, if_neg hnb]
          have hlen2 : (((acc ++ [Entry.pr (projectPR item)]).length : Int)
              + ((rest.filterMap fun m =>
                  keep_range_entry (fetch m)).length : Int) < maxCount) := by
            simp only [List.length_append, List.length_cons,
              List.length_nil]
            push_cast
            push_cast at hlen
            omega
          obtain ⟨h1, h2⟩ := ih (acc ++ [Entry.pr (projectPR item)])
            (vis ++ [n]) (record_analyzed_pr s owner repo item.number)
            hrest hlen2
          rw [hunfold, h1, h2]
          constructor
          · rw [List.filterMap_cons, hkeep, List.append_assoc]
            rfl
          · rw [List.append_assoc]
            rfl
        · have hknone : keep_range_entry (fetch n) = none := by
            simp [keep_range_entry, hf, hst]
          simp only [List.filterMap_cons, hknone] at hlen
          have hunfold : range_loop fetch owner repo maxCount (n :: rest)
                acc vis s
              = range_loop fetch owner repo maxCount rest acc (vis ++ [n])
                  s := by
            simp only [range_loop, hf]
            rw [if_neg hst]
          obtain ⟨h1, h2⟩ := ih acc (vis ++ [n]) s hrest hlen
          rw [hunfold, h1, h2]
          constructor
          · simp only [List.filterMap_cons, hknone]
          · rw [List.append_assoc]
            rfl

lemma range_loop_take (fetch : Int → FetchOutcome) (owner repo : String)
    (maxCount : Int) :
    ∀ (pending : List Int) (acc : List Entry) (vis : List Int)
      (s : Finset PrKey),
      (∀ n ∈ pending, isHardError (fetch n) = false) →
      (acc.length : Int) < maxCount →
      (range_loop fetch owner repo maxCount pending acc vis s).results
        = acc ++ (pending.filterMap fun n =>
            keep_range_entry (fetch n)).take (maxCount.toNat - acc.length) := by
  intro pending
  induction pending with
  | nil => intro acc vis s _ _; simp [range_loop]
  | cons n rest ih =>
    intro acc vis s hclean h
    have hn : isHardError (fetch n) = false := hclean n (by simp)
    have hrest : ∀ m ∈ rest, isHardError (fetch m) = false :=
      fun m hm => hclean m (by simp [hm])
    cases hf : fetch n with
    | httpErr code msg =>
      have hcode : code = 404 := by
        rw [hf] at hn
        simpa [isHardError] using hn
      have hknone : keep_range_entry (fetch n) = none := by
        simp [keep_range_entry, hf]
      have hunfold : range_loop fetch owner repo maxCount (n :: rest) acc
            vis s
          = range_loop fetch owner repo maxCount rest acc (vis ++ [n]) s := by
        simp only [range_loop, hf]
        rw [if_pos hcode]
      rw [hunfold, ih acc (vis ++ [n]) s hrest h]
      simp only [List.filterMap_cons, hknone]
    | exc msg =>
      rw [hf] at hn
      simp [isHardError] at hn
    | ok v =>
      cases v with
      | nonDict =>
        have hknone : keep_range_entry (fetch n) = none := by
          simp [keep_range_entry, hf]
        have hunfold : range_loop fetch owner repo maxCount (n :: rest) acc
              vis s
            = range_loop fetch owner repo maxCount rest acc (vis ++ [n])
                s := by
          simp only [range_loop, hf]
        rw [hunfold, ih acc (vis ++ [n]) s hrest h]
        simp only [List.filterMap_cons, hknone]
      | dict item =>
        by_cases hst : item.state = some "closed"
        · have hkeep : keep_range_entry (fetch n)
              = some (Entry.pr (projectPR item)) := by
            simp [keep_range_entry, hf, hst]
          by_cases hc : maxCount
              ≤ ((acc ++ [Entry.pr (projectPR item)]).length : Int)
          · have hunfold : range_loop fetch owner repo maxCount (n :: rest)
                  acc vis s
                = ⟨acc ++ [Entry.pr (projectPR item)], vis ++ [n],
                   record_analyzed_pr s owner repo item.number⟩ := by
              simp only [range_loop, hf]
              rw [if_pos hst, if_pos hc]
            rw [hunfold]
            simp only [List.filterMap_cons, hkeep]
            have h1 : maxCount.toNat - acc.length = 1 := by
              simp only [List.length_append, List.length_cons,
                List.length_nil] at hc
              push_cast at hc
              omega
            rw [h1]
            rfl
          · have hunfold : range_loop fetch owner repo maxCount (n :: rest)
                  acc vis s
                = range_loop fetch owner repo maxCount rest
                    (acc ++ [Entry.pr (projectPR item)]) (vis ++ [n])
                    (record_analyzed_pr s owner repo item.number) := by
              simp only [range_loop, hf]
              rw [if_pos hst, if_neg hc]
            have h2 : ((acc ++ [Entry.pr (projectPR item)]).length : Int)
                < maxCount := by
              simp only [List.length_append, List.length_cons,
                List.length_nil] at hc ⊢
              push_cast at hc ⊢
              omega
            rw [hunfold, ih _ (vis ++ [n]) _ hrest h2]
            simp only [List.filterMap_cons, hkeep, List.length_append,
              List.length_cons, List.length_nil]
            have h3 : maxCount.toNat - acc.length
                = (maxCount.toNat - (acc.length + 1)) + 1 := by omega
            rw [h3, List.take_succ_cons, List.append_assoc]
            rfl
        · have hknone : keep_range_entry (fetch n) = none := by
            simp [keep_range_entry, hf, hst]
          have hunfold : range_loop fetch owner repo maxCount (n :: rest)
                acc vis s
              = range_loop fetch owner repo maxCount rest acc (vis ++ [n])
                  s := by
            simp only [range_loop, hf]
            rw [if_neg hst]
          rw [hunfold, ih acc (vis ++ [n]) s hrest h]
          simp only [List.filterMap_cons, hknone]

lemma range_loop_cap (fetch : Int → FetchOutcome) (owner repo : String)
    (maxCount : Int) (hm : 0 < maxCount) :
    ∀ (pending : List Int) (acc : List Entry) (vis : List Int)
      (s : Finset PrKey),
      (acc.length : Int) < maxCount →
      (∀ e ∈ acc, ∀ r, e = Entry.pr r → r.state = some "closed") →
      (((range_loop fetch owner repo maxCount pending acc vis
          s).results.length : Int) ≤ maxCount) ∧
      (∀ r, Entry.pr r ∈ (range_loop fetch owner repo maxCount pending acc
          vis s).results → r.state = some "closed") := by
  intro pending
  induction pending with
  | nil =>
    intro acc vis s h hcl
    refine ⟨by simpa [range_loop] using le_of_lt h, ?_⟩
    intro r hr
    exact hcl _ (by simpa [range_loop] using hr) r rfl
  | cons n rest ih =>
    intro acc vis s h hcl
    cases hf : fetch n with
    | httpErr code msg =>
      by_cases hcode : code = 404
      · have hunfold : range_loop fetch owner repo maxCount (n :: rest) acc
              vis s
            = range_loop fetch owner repo maxCount rest acc (vis ++ [n])
                s := by
          simp only [range_loop, hf]
          rw [if_pos hcode]
        rw [hunfold]
        exact ih acc (vis ++ [n]) s h hcl
      · have hunfold : range_loop fetch owner repo maxCount (n :: rest) acc
              vis s
            = ⟨[.err ("GitHub request failed: " ++ msg)], vis ++ [n],
               s⟩ := by
          simp only [range_loop, hf]
          rw [if_neg hcode]
        rw [hunfold]
        refine ⟨by simp; omega, ?_⟩
        intro r hr
        simp at hr
    | exc msg =>
      have hunfold : range_loop fetch owner repo maxCount (n :: rest) acc
            vis s
          = ⟨[.err ("GitHub request failed: " ++ msg)], vis ++ [n], s⟩ := by
        simp only [range_loop, hf]
      rw [hunfold]
      refine ⟨by simp; omega, ?_⟩
      intro r hr
      simp at hr
    | ok v =>
      cases v with
      | nonDict =>
        have hunfold : range_loop fetch owner repo maxCount (n :: rest) acc
              vis s
            = range_loop fetch owner repo maxCount rest acc (vis ++ [n])
                s := by
          simp only [range_loop, hf]
        rw [hunfold]
        exact ih acc (vis ++ [n]) s h hcl
      | dict item =>
        by_cases hst : item.state = some "closed"
        · have hcl2 : ∀ e ∈ acc ++ [Entry.pr (projectPR item)], ∀ r,
              e = Entry.pr r → r.state = some "closed" := by
            intro e he r her
            rcases List.mem_append.mp he with h1 | h1
            · exact hcl e h1 r her
            · simp at h1
              subst h1
              rw [Entry.pr.injEq] at her
              rw [← her]
              exact hst
          by_cases hc : maxCount
              ≤ ((acc ++ [Entry.pr (projectPR item)]).length : Int)
          · have hunfold : range_loop fetch owner repo maxCount (n :: rest)
                  acc vis s
                = ⟨acc ++ [Entry.pr (projectPR item)], vis ++ [n],
                   record_analyzed_pr s owner repo item.number⟩ := by
              simp only [range_loop, hf]
              rw [if_pos hst, if_pos hc]
            rw [hunfold]
            refine ⟨?_, ?_⟩
            · simp only [List.length_append, List.length_cons,
                List.length_nil]
              push_cast
              omega
            · intro r hr
              exact hcl2 _ hr r rfl
          · have hunfold : range_loop fetch owner repo maxCount (n :: rest)
                  acc vis s
                = range_loop fetch owner repo maxCount rest
                    (acc ++ [Entry.pr (projectPR item)]) (vis ++ [n])
                    (record_analyzed_pr s owner repo item.number) := by
              simp only [range_loop, hf]
              rw [if_pos hst, if_neg hc]
            rw [hunfold]
            refine ih _ (vis ++ [n]) _ ?_ hcl2
            simp only [List.length_append, List.length_cons,
              List.length_nil] at hc ⊢
            push_cast at hc ⊢
            omega
        · have hunfold : range_loop fetch owner repo maxCount (n :: rest)
                acc vis s
              = range_loop fetch owner repo maxCount rest acc (vis ++ [n])
                  s := by
            simp only [range_loop, hf]
            rw [if_neg hst]
          rw [hunfold]
          exact ih acc (vis ++ [n]) s h hcl

lemma range_loop_abort (fetch : Int → FetchOutcome) (owner repo : String)
    (maxCount : Int) :
    ∀ (p : List Int) (n : Int) (rest : List Int) (acc : List Entry)
      (vis : List Int) (s : Finset PrKey),
      (∀ m ∈ p, isHardError (fetch m) = false) →
      ((acc.length : Int)
        + ((p.filterMap fun m => keep_range_entry (fetch m)).length : Int)
        < maxCount) →
      isHardError (fetch n) = true →
      ∃ s2, range_loop fetch owner repo maxCount (p ++ n :: rest) acc vis s
        = ⟨[.err (errMsgOf (fetch n))], vis ++ p ++ [n], s2⟩ := by
  intro p
  induction p with
  | nil =>
    intro n rest acc vis s _ _ hhard
    cases hf : fetch n with
    | httpErr code msg =>
      have hcode : ¬ (code = 404) := by
        rw [hf] at hhard
        simpa [isHardError] using hhard
      refine ⟨s, ?_⟩
      simp only [List.nil_append, range_loop, hf]
      rw [if_neg hcode]
      simp [errMsgOf, hf]
    | exc msg =>
      refine ⟨s, ?_⟩
      simp only [List.nil_append, range_loop, hf]
      simp [errMsgOf, hf]
    | ok v =>
      rw [hf] at hhard
      simp [isHardError] at hhard
  | cons m p' ih =>
    intro n rest acc vis s hclean hlen hhard
    have hm0 : isHardError (fetch m) = false := hclean m (by simp)
    have hrest : ∀ x ∈ p', isHardError (fetch x) = false :=
      fun x hx => hclean x (by simp [hx])
    cases hf : fetch m with
    | httpErr code msg =>
      have hcode : code = 404 := by
        rw [hf] at hm0
        simpa [isHardError] using hm0
      have hknone : keep_range_entry (fetch m) = none := by
        simp [keep_range_entry, hf]
      simp only [List.filterMap_cons, hknone] at hlen
      have hunfold : range_loop fetch owner repo maxCount
            ((m :: p') ++ n :: rest) acc vis s
          = range_loop fetch owner repo maxCount (p' ++ n :: rest) acc
              (vis ++ [m]) s := by
        simp only [List.cons_append, range_loop, hf]
        rw [if_pos hcode]
        rfl
      obtain ⟨s2, hrec⟩ := ih n rest acc (vis ++ [m]) s hrest hlen hhard
      refine ⟨s2, ?_⟩
      rw [hunfold, hrec]
      simp [List.append_assoc]
    | exc msg =>
      rw [hf] at hm0
      simp [isHardError] at hm0
    | ok v =>
      cases v with
      | nonDict =>
        have hknone : keep_range_entry (fetch m) = none := by
          simp [keep_range_entry, hf]
        simp only [List.filterMap_cons, hknone] at hlen
        have hunfold : range_loop fetch owner repo maxCount
              ((m :: p') ++ n :: rest) acc vis s
            = range_loop fetch owner repo maxCount (p' ++ n :: rest) acc
                (vis ++ [m]) s := by
          simp only [List.cons_append, range_loop, hf]
          rfl
        obtain ⟨s2, hrec⟩ := ih n rest acc (vis ++ [m]) s hrest hlen hhard
        refine ⟨s2, ?_⟩
        rw [hunfold, hrec]
        simp [List.append_assoc]
      | dict item =>
        by_cases hst : item.state = some "closed"
        · have hkeep : keep_range_entry (fetch m)
              = some (Entry.pr (projectPR item)) := by
            simp [keep_range_entry, hf, hst]
          simp only [List.filterMap_cons, hkeep, List.length_cons] at hlen
          have hnb : ¬ (maxCount
              ≤ ((acc ++ [Entry.pr (projectPR item)]).length : Int)) := by
            simp only [List.length_append, List.length_cons,
              List.length_nil]
            push_cast
            push_cast at hlen
            omega
          have hunfold : range_loop fetch owner repo maxCount
                ((m :: p') ++ n :: rest) acc vis s
              = range_loop fetch owner repo maxCount (p' ++ n :: rest)
                  (acc ++ [Entry.pr (projectPR item)]) (vis ++ [m])
                  (record_analyzed_pr s owner repo item.number) := by
            simp only [List.cons_append, range_loop, hf]
            rw [if_pos hst, if_neg hnb]
            rfl
          have hlen2 : (((acc ++ [Entry.pr (projectPR item)]).length : Int)
              + ((p'.filterMap fun x =>
                  keep_range_entry (fetch x)).length : Int) < maxCount) := by
            simp only [List.length_append, List.length_cons,
              List.length_nil]
            push_cast
            push_cast at hlen
            omega
          obtain ⟨s2, hrec⟩ := ih n rest
            (acc ++ [Entry.pr (projectPR item)]) (vis ++ [m])
            (record_analyzed_pr s owner repo item.number) hrest hlen2 hhard
          refine ⟨s2, ?_⟩
          rw [hunfold, hrec]
          simp [List.append_assoc]
        · have hknone : keep_range_entry (fetch m) = none := by
            simp [keep_range_entry, hf, hst]
          simp only [List.filterMap_cons, hknone] at hlen
          have hunfold : range_loop fetch owner repo maxCount
                ((m :: p') ++ n :: rest) acc vis s
              = range_loop fetch owner repo maxCount (p' ++ n :: rest) acc
                  (vis ++ [m]) s := by
            simp only [List.cons_append, range_loop, hf]
            rw [if_neg hst]
            rfl
          obtain ⟨s2, hrec⟩ := ih n rest acc (vis ++ [m]) s hrest hlen hhard
          refine ⟨s2, ?_⟩
          rw [hunfold, hrec]
          simp [List.append_assoc]

/-- C3: in time-window mode, `github_recent_prs` returns exactly the fetched
records that pass the date filter — merge date falling back to update date,
with an absent or unparseable date passing the filter — in order, capped at
`max_count`. -/
theorem claim_C3 (parseDate : String → Option Int)
    (now sinceDays maxCount : Int) (owner repo : String)
    (items : List ApiValue) (s : Finset PrKey) (hm : 0 < maxCount) :
    Except.map Prod.fst
      (github_recent_prs_window parseDate now sinceDays maxCount owner repo
        (.ok items) s)
      = .ok ((window_kept parseDate (now - sinceDays) items).take
          maxCount.toNat) := by
  simp only [github_recent_prs_window, Except.map]
  rw [window_loop_take parseDate (now - sinceDays) maxCount owner repo items
    [] s (by simpa using hm)]
  simp

/-- C3 witness: at threshold 70, a listing with one too-old PR, one recent
PR, one undated PR, one unparseably dated PR, and one non-dict element,
capped at 2. -/
theorem claim_C3_witness :
    ((0 : Int) < 2) ∧
    Except.map Prod.fst
      (github_recent_prs_window parseW3 100 30 2 "acme" "widgets"
        (.ok itemsW3) reset_analyzed_prs)
      = .ok ((window_kept parseW3 (100 - 30) itemsW3).take
          (2 : Int).toNat) :=
  ⟨by decide,
   claim_C3 parseW3 100 30 2 "acme" "widgets" itemsW3 reset_analyzed_prs
     (by decide)⟩

/-- C4: in range mode with `0 < from_pr ≤ to_pr` and `0 < max_count`:
when no fetch fails hard, the call returns the closed PRs among the
ascending number range (404s and non-closed PRs skipped) capped at
`max_count`, and visits every number of the range when the cap is not
reached; every successful return has at most `max_count` results, all of
them closed; and a hard fetch failure at the first not-yet-capped position
makes the whole call return a single-element error record. -/
theorem claim_C4 (fetch : Int → FetchOutcome) (owner repo : String)
    (maxCount f t : Int) (s : Finset PrKey)
    (hf : 0 < f) (hft : f ≤ t) (hm : 0 < maxCount) :
    ((∀ n ∈ intRange f t, isHardError (fetch n) = false) →
      ∃ out, github_recent_prs_range fetch owner repo maxCount (some f)
          (some t) s = .ok out ∧
        out.results = ((intRange f t).filterMap fun n =>
            keep_range_entry (fetch n)).take maxCount.toNat ∧
        ((((intRange f t).filterMap fun n =>
            keep_range_entry (fetch n)).length : Int) < maxCount →
          out.visited = intRange f t)) ∧
    (∀ out, github_recent_prs_range fetch owner repo maxCount (some f)
        (some t) s = .ok out →
      (out.results.length : Int) ≤ maxCount ∧
      ∀ r, Entry.pr r ∈ out.results → r.state = some "closed") ∧
    (∀ p n rest, intRange f t = p ++ n :: rest →
      (∀ m ∈ p, isHardError (fetch m) = false) →
      (((p.filterMap fun m => keep_range_entry (fetch m)).length : Int)
        < maxCount) →
      isHardError (fetch n) = true →
      ∃ s2, github_recent_prs_range fetch owner repo maxCount (some f)
          (some t) s = .ok ⟨[.err (errMsgOf (fetch n))], p ++ [n], s2⟩) := by
  have hval : github_recent_prs_range fetch owner repo maxCount (some f)
      (some t) s
      = .ok (range_loop fetch owner repo maxCount (intRange f t) [] []
          s) := by
    simp only [github_recent_prs_range]
    rw [if_neg (by omega), if_neg (by omega)]
  refine ⟨?_, ?_, ?_⟩
  · intro hclean
    refine ⟨_, hval, ?_, ?_⟩
    · rw [range_loop_take fetch owner repo maxCount (intRange f t) [] [] s
        hclean (by simpa using hm)]
      simp
    · intro hklen
      exact (range_loop_clean fetch owner repo maxCount (intRange f t) []
        [] s hclean (by simpa using hklen)).2
  · intro out hout
    rw [hval, Except.ok.injEq] at hout
    subst hout
    exact range_loop_cap fetch owner repo maxCount hm (intRange f t) [] []
      s (by simpa using hm) (by simp)
  · intro p n rest hsplit hcleanp hplen hhard
    obtain ⟨s2, habort⟩ := range_loop_abort fetch owner repo maxCount p n
      rest [] [] s hcleanp (by simpa using hplen) hhard
    refine ⟨s2, ?_⟩
    rw [hval, hsplit, habort]
    simp

/-- C4 witness: the range `[1, 3]` with PR 1 closed, PR 2 missing (404) and
PR 3 open, at `max_count = 50`. -/
theorem claim_C4_witness :
    ((0 : Int) < 1) ∧ ((1 : Int) ≤ 3) ∧ ((0 : Int) < 50) ∧
    (((∀ n ∈ intRange 1 3, isHardError (fetchW4 n) = false) →
      ∃ out, github_recent_prs_range fetchW4 "acme" "widgets" 50 (some 1)
          (some 3) reset_analyzed_prs = .ok out ∧
        out.results = ((intRange 1 3).filterMap fun n =>
            keep_range_entry (fetchW4 n)).take (50 : Int).toNat ∧
        ((((intRange 1 3).filterMap fun n =>
            keep_range_entry (fetchW4 n)).length : Int) < 50 →
          out.visited = intRange 1 3)) ∧
    (∀ out, github_recent_prs_range fetchW4 "acme" "widgets" 50 (some 1)
        (some 3) reset_analyzed_prs = .ok out →
      (out.results.length : Int) ≤ 50 ∧
      ∀ r, Entry.pr r ∈ out.results → r.state = some "closed") ∧
    (∀ p n rest, intRange 1 3 = p ++ n :: rest →
      (∀ m ∈ p, isHardError (fetchW4 m) = false) →
      (((p.filterMap fun m => keep_range_entry (fetchW4 m)).length : Int)
        < 50) →
      isHardError (fetchW4 n) = true →
      ∃ s2, github_recent_prs_range fetchW4 "acme" "widgets" 50 (some 1)
          (some 3) reset_analyzed_prs
          = .ok ⟨[.err (errMsgOf (fetchW4 n))], p ++ [n], s2⟩)) :=
  ⟨by decide, by decide, by decide,
   claim_C4 fetchW4 "acme" "widgets" 50 1 3 reset_analyzed_prs
     (by decide) (by decide) (by decide)⟩

/-- C5: the code contradicts the claim — `github_fetch_pr` never records
the visited PR into the analyzed-PR evidence set: the source contains no
`_record_analyzed_pr` call, so the set is returned unchanged in every
branch, and in particular a successful fetch of `acme/widgets#12` leaves
`("acme", "widgets", 12)` out of the set. -/
theorem claim_C5 :
    (∀ (o : FetchOutcome) (ow re : String) (n : Int) (sp : Finset PrKey),
      (github_fetch_pr o ow re n sp).2 = sp) ∧
    (github_fetch_pr (.ok (.dict prItemClosed)) "acme" "widgets" 12
        reset_analyzed_prs).1
      = .detail ⟨some 12, some "PR 12", some "closed", none,
          some "2024-01-01", some "u", "body"⟩ ∧
    ("acme", "widgets", (12 : Int)) ∉
      (github_fetch_pr (.ok (.dict prItemClosed)) "acme" "widgets" 12
        reset_analyzed_prs).2 := by
  refine ⟨?_, by rfl, ?_⟩
  · intro o ow re n sp
    cases o with
    | httpErr code msg => rfl
    | exc msg => rfl
    | ok v => cases v <;> rfl
  · show ("acme", "widgets", (12 : Int)) ∉ reset_analyzed_prs
    rw [reset_analyzed_prs]
    exact Finset.not_mem_empty _

/-- C6 counterexample: at `from_pr = 2, to_pr = 1` the call does NOT raise:
it returns normally (`Except.ok`, which models a normal Python return) with
a single-element error record, issuing no request.  The claim that a
malformed range pair raises is false. -/
theorem claim_C6_counterexample :
    github_recent_prs_range fetchBoom "acme" "widgets" 50 (some 2) (some 1)
        reset_analyzed_prs
      = .ok ⟨[.err "from_pr must be <= to_pr"], [], reset_analyzed_prs⟩ ∧
    isNormalReturn
      (github_recent_prs_range fetchBoom "acme" "widgets" 50 (some 2)
        (some 1) reset_analyzed_prs) = true :=
  ⟨by rfl, by rfl⟩

/-- C6 amended: a malformed range pair (only one bound supplied, a
non-positive bound, or `from_pr > to_pr`) makes `github_recent_prs` return
a single-element error record immediately — a normal return, not a raised
exception — before any network request is issued (the request list is empty
and the result does not depend on the fetch oracle). -/
theorem claim_C6 (fetch : Int → FetchOutcome) (owner repo : String)
    (maxCount : Int) (s : Finset PrKey) (f t : Int) :
    (github_recent_prs_range fetch owner repo maxCount (some f) none s
      = .ok ⟨[.err "from_pr and to_pr must both be provided"], [], s⟩) ∧
    (github_recent_prs_range fetch owner repo maxCount none (some t) s
      = .ok ⟨[.err "from_pr and to_pr must both be provided"], [], s⟩) ∧
    (f ≤ 0 ∨ t ≤ 0 →
      github_recent_prs_range fetch owner repo maxCount (some f) (some t) s
        = .ok ⟨[.err "from_pr and to_pr must be positive"], [], s⟩) ∧
    (0 < f → 0 < t → t < f →
      github_recent_prs_range fetch owner repo maxCount (some f) (some t) s
        = .ok ⟨[.err "from_pr must be <= to_pr"], [], s⟩) := by
  refine ⟨rfl, rfl, ?_, ?_⟩
  · intro h
    simp only [github_recent_prs_range]
    rw [if_pos h]
  · intro h1 h2 h3
    simp only [github_recent_prs_range]
    rw [if_neg (by omega), if_pos (by omega)]

/-- C6 witness: the inverted pair `(2, 1)` yields the error record with no
request issued. -/
theorem claim_C6_witness :
    github_recent_prs_range fetchBoom "acme" "widgets" 50 (some 2) (some 1)
        reset_analyzed_prs
      = .ok ⟨[.err "from_pr must be <= to_pr"], [], reset_analyzed_prs⟩ :=
  (claim_C6 fetchBoom "acme" "widgets" 50 reset_analyzed_prs 2 1).2.2.2
    (by decide) (by decide) (by decide)

/-- C7 counterexample: `github_recent_issues` performs no positivity
validation: with `max_count = 0` (and likewise `since_days = -5`) it still
returns a normal, non-error result list, contradicting the claim that a
non-positive bound is an input-validation failure for it. -/
theorem claim_C7_counterexample :
    github_recent_issues 30 0 (.ok [.dict issueItemW7])
      = .ok [.issue (projectIssue issueItemW7)] ∧
    github_recent_issues (-5) 50 (.ok [.dict issueItemW7])
      = .ok [.issue (projectIssue issueItemW7)] :=
  ⟨by rfl, by rfl⟩

/-- C7 amended: the git-backed tool `git_recent_commits` does validate its
bounded-size parameters, raising `ValueError` on a non-positive
`since_days` or `max_count`; `github_recent_issues` performs no such
validation — it always returns normally, and with a non-positive
`max_count` still returns one result when the first listed item is a
plain issue. -/
theorem claim_C7 (stdout : String) (sd mc : Int) (fetch : IssueListFetch)
    (item : IssueItem) (rest : List IssueApiValue) :
    (sd ≤ 0 → git_recent_commits sd mc stdout
      = .error "since_days must be > 0") ∧
    (0 < sd → mc ≤ 0 → git_recent_commits sd mc stdout
      = .error "max_count must be > 0") ∧
    (isNormalReturn (github_recent_issues sd mc fetch) = true) ∧
    (mc ≤ 0 → item.has_pull_request = false →
      github_recent_issues sd mc (.ok (.dict item :: rest))
        = .ok [.issue (projectIssue item)]) := by
  refine ⟨?_, ?_, ?_, ?_⟩
  · intro h
    rw [git_recent_commits, if_pos h]
  · intro h1 h2
    rw [git_recent_commits, if_neg (by omega), if_pos h2]
  · cases fetch <;> rfl
  · intro h1 h2
    simp only [github_recent_issues, issues_loop, h2, ite_false,
      Bool.false_eq_true]
    rw [if_pos (by simp; omega)]
    simp

/-- C7 witness: the validation errors of `git_recent_commits` at `-1` and
`0`, and the unvalidated result of `github_recent_issues` at
`max_count = 0`. -/
theorem claim_C7_witness :
    (git_recent_commits (-1) 5 "" = .error "since_days must be > 0") ∧
    (git_recent_commits 30 0 "" = .error "max_count must be > 0") ∧
    (isNormalReturn
      (github_recent_issues 30 0 (.ok [.dict issueItemW7])) = true) ∧
    (github_recent_issues 30 0 (.ok [.dict issueItemW7])
      = .ok [.issue (projectIssue issueItemW7)]) :=
  ⟨(claim_C7 "" (-1) 5 (.ok [.dict issueItemW7]) issueItemW7 []).1
     (by decide),
   (claim_C7 "" 30 0 (.ok [.dict issueItemW7]) issueItemW7 []).2.1
     (by decide) (by decide),
   (claim_C7 "" 30 0 (.ok [.dict issueItemW7]) issueItemW7 []).2.2.1,
   (claim_C7 "" 30 0 (.ok [.dict issueItemW7]) issueItemW7 []).2.2.2
     (by decide) (by rfl)⟩
